import Mathlib

/-!
# Verification of the DebuggyDuckyMCP code-analysis agent

A shallow embedding of the analysis pipeline implemented in
`src/enhanced_code_agent.py` (class `IntelligentCodeAgent`) and of the
line-range analysis tool in `src/mcp_agentic_server.py`
(`_line_level_code_analysis`), together with proofs and refutations of the
specification's claims about them.

Python strings are embedded as Lean `String` / `List Char`; Python dicts with
a statically known key set are embedded as structures whose optional fields
model keys that may be absent; Python functions that return error dicts are
embedded as sum types.  Machine-level concerns do not arise: all arithmetic in
the source is small-integer arithmetic, embedded as `Nat` / `Int`.
-/

namespace DebuggyDucky

/-! ## Python string primitives

The source manipulates `str` values with `split('\n')`, `strip()`, `lstrip()`,
`startswith`, and the `in` substring test.  We embed these as structural
functions on `List Char` so that every definition evaluates by kernel
reduction.  `pyIsSpace` models the ASCII whitespace class used by `str.strip`
and by the regex `\s` (space, tab, newline, carriage return, form feed,
vertical tab); the source never feeds non-ASCII whitespace to these
operations. -/

def pyIsSpace (c : Char) : Bool :=
  c == ' ' || c == '\t' || c == '\n' || c == '\r' || c == '\x0c' || c == '\x0b'

/-- `content.split('\n')` on the character list: maximal `'\n'`-free segments;
`"".split('\n') = [""]`. -/
def splitLinesCore : List Char → List (List Char)
  | [] => [[]]
  | c :: rest =>
    if c = '\n' then [] :: splitLinesCore rest
    else
      match splitLinesCore rest with
      | [] => [[c]]
      | l :: ls => (c :: l) :: ls

/-- `content.split('\n')` as a list of lines. -/
def splitLines (s : String) : List String :=
  (splitLinesCore s.toList).map (fun l => String.mk l)

/-- `'\n'.join(lines)`. -/
def joinLines : List String → String
  | [] => ""
  | [l] => l
  | l :: ls => l ++ "\n" ++ joinLines ls

/-- `not line.strip()`: the line is empty or all whitespace. -/
def isBlankLine (l : String) : Bool :=
  (l.toList.dropWhile pyIsSpace).isEmpty

/-- `line.strip().startswith('#')`: the first non-whitespace character is
`'#'`. -/
def isCommentLine (l : String) : Bool :=
  match l.toList.dropWhile pyIsSpace with
  | '#' :: _ => true
  | _ => false

/-- `len(line) - len(line.lstrip())`: the number of leading whitespace
characters. -/
def indentOf (l : String) : Nat :=
  (l.toList.takeWhile pyIsSpace).length

/-- `pre` is an initial segment of `cs` (Python `startswith`). -/
def listStartsWith : List Char → List Char → Bool
  | _, [] => true
  | [], _ :: _ => false
  | a :: as_, b :: bs => a == b && listStartsWith as_ bs

/-- `needle in hay` (Python substring test). -/
def listContainsSub (hay needle : List Char) : Bool :=
  match hay with
  | [] => needle.isEmpty
  | _ :: rest => listStartsWith hay needle || listContainsSub rest needle

/-- `pat in s` on strings. -/
def strContains (s pat : String) : Bool :=
  listContainsSub s.toList pat.toList

/-! ## Block extraction — `IntelligentCodeAgent._extract_full_definition`

`src/enhanced_code_agent.py`, lines 179-210.  Given the file text and the
0-based line index of a `class`/`def` line, the loop walks forward collecting
body lines: blank and comment-only lines are appended unconditionally; the
first other line whose indentation is at most the definition line's
indentation stops the loop and is not appended. -/

/-- The `for i in range(start_line + 1, len(lines))` loop body, lines 193-208
of the source, as structural recursion over the remaining lines. -/
def extractLoop (base : Nat) : List String → List String
  | [] => []
  | l :: rest =>
    if isBlankLine l || isCommentLine l then l :: extractLoop base rest
    else if indentOf l ≤ base then []
    else l :: extractLoop base rest

/-- `_extract_full_definition(content, start_line)`.  The source guard
`start_line >= len(lines)` (line 183) is the `[]` case of dropping
`start_line` lines. -/
def extractFullDefinition (content : String) (startLine : Nat) : String :=
  match (splitLines content).drop startLine with
  | [] => ""
  | defLine :: rest => joinLines (defLine :: extractLoop (indentOf defLine) rest)

/-! ## Line-range validation — `_line_level_code_analysis`

`src/mcp_agentic_server.py`, lines 687-732: after the file has been read into
`lines`, the `line_number` argument is parsed (`'5'` or `'5-7'`), a failed
parse returns the "INVALID LINE NUMBER" error dict, then only `start_line` is
range checked against `1..total_lines`, a violation returning the "LINE OUT OF
RANGE" error dict with `valid_range = f"1-{total_lines}"`. -/

/-- The numeric core of Python `int(str)`: optional surrounding whitespace, an
optional sign, then a non-empty digit run.  (PEP 515 underscore grouping is
not modelled; no input in this code base uses it.) -/
def digitsToNatAux : Nat → List Char → Option Nat
  | acc, [] => some acc
  | acc, c :: rest =>
    if c.isDigit then digitsToNatAux (acc * 10 + (c.toNat - '0'.toNat)) rest
    else none

def digitsToNat : List Char → Option Nat
  | [] => none
  | cs => digitsToNatAux 0 cs

/-- Python `int(s)`, returning `none` where CPython raises `ValueError`. -/
def pyInt (s : String) : Option Int :=
  let core := (s.toList.dropWhile pyIsSpace).reverse.dropWhile pyIsSpace |>.reverse
  match core with
  | '+' :: rest => (digitsToNat rest).map Int.ofNat
  | '-' :: rest => (digitsToNat rest).map (fun n => -(n : Int))
  | rest => (digitsToNat rest).map Int.ofNat

/-- `line_number.split('-')`. -/
def splitOnDash : List Char → List (List Char)
  | [] => [[]]
  | c :: rest =>
    if c = '-' then [] :: splitOnDash rest
    else
      match splitOnDash rest with
      | [] => [[c]]
      | l :: ls => (c :: l) :: ls

/-- Lines 688-693 of `src/mcp_agentic_server.py`: if `'-' in line_number`,
split on `'-'` and convert the two pieces, otherwise convert the whole string;
`none` models the `ValueError` caught at line 694 (including the unpacking
error when the split does not have exactly two pieces). -/
def parseLineSpec (s : String) : Option (Int × Int) :=
  if s.toList.contains '-' then
    match splitOnDash s.toList with
    | [a, b] =>
      match pyInt (String.mk a), pyInt (String.mk b) with
      | some x, some y => some (x, y)
      | _, _ => none
    | _ => none
  else
    (pyInt s).map (fun n => (n, n))

/-- The fields of the `"📍 LOCATION CONTEXT"` part of a successful result that
the claims speak about. -/
structure LocationContext where
  startLine : Int
  endLine : Int
  totalFileLines : Nat
  deriving DecidableEq, Repr

/-- The three outcomes of the parse/validate phase of
`_line_level_code_analysis` (the error dict keys `"❌ INVALID LINE NUMBER"`
and `"❌ LINE OUT OF RANGE"`, and the successful analysis). -/
inductive LineAnalysisResult where
  | invalidLineSpec (expectedFormat : String)
  | lineOutOfRange (message : String) (validRange : String)
  | ok (ctx : LocationContext)
  deriving DecidableEq, Repr

/-- Lines 687-732 of `src/mcp_agentic_server.py` from the point where the file
content is available as `fileLines`. -/
def lineLevelCore (fileLines : List String) (lineSpec : String) : LineAnalysisResult :=
  match parseLineSpec lineSpec with
  | none =>
      .invalidLineSpec "Single line (e.g., 42) or range (e.g., 42-45)"
  | some (s, e) =>
      let total : Nat := fileLines.length
      if s < 1 ∨ s > (total : Int) then
        .lineOutOfRange
          ("Line " ++ toString s ++ " is out of range (file has " ++
            toString total ++ " lines)")
          ("1-" ++ toString total)
      else
        .ok { startLine := s, endLine := e, totalFileLines := total }

/-! ## Security analyzer — `_analyze_security_risks`

`src/enhanced_code_agent.py`, lines 630-650: two independent substring checks
appending at most one finding each. -/

structure SecurityFinding where
  issueType : String
  description : String
  severity : String
  suggestion : String
  deriving DecidableEq, Repr

/-- The finding appended when `'eval(' in source_code` (lines 634-640). -/
def evalRiskFinding : SecurityFinding :=
  { issueType := "Code Injection"
    description := "Use of eval() can execute arbitrary code"
    severity := "critical"
    suggestion := "Replace eval() with safer alternatives like ast.literal_eval()" }

/-- The finding appended when `'open(' in source_code and 'w' in source_code`
(lines 642-648). -/
def fileWriteFinding : SecurityFinding :=
  { issueType := "File System Access"
    description := "Writing to files without validation"
    severity := "medium"
    suggestion := "Validate file paths and implement proper access controls" }

/-- `_analyze_security_risks(source_code)`. -/
def analyzeSecurityRisks (sourceCode : String) : List SecurityFinding :=
  (if strContains sourceCode "eval(" then [evalRiskFinding] else []) ++
    (if strContains sourceCode "open(" && strContains sourceCode "w" then
      [fileWriteFinding] else [])

/-! ## Entity location — `_search_in_file`

`src/enhanced_code_agent.py`, lines 135-163.  The locator runs
`re.finditer(rf"^(class|def)\s+{re.escape(entity_name)}\s*[\(\:]", content,
re.MULTILINE)` and returns, for the first match, the source block extracted at
the line on which the match starts (`content[:match.start()].count('\n')`).
With `re.MULTILINE`, `^` matches only at offset 0 and immediately after a
`'\n'`; the keyword therefore has to start in column 0.  The alternation is
embedded by trying `class` then `def` (their literals are never prefixes of
one another, so this is exact), `\s+`/`\s*` by backtracking disjunctions. -/

/-- `\s*[\(\:]`: any run of whitespace, then one of `(` `:`. -/
def matchDelim : List Char → Bool
  | [] => false
  | c :: rest =>
    if c == '(' || c == ':' then true
    else if pyIsSpace c then matchDelim rest
    else false

/-- The escaped entity name followed by `\s*[\(\:]`. -/
def matchNameTail (name : List Char) (cs : List Char) : Bool :=
  listStartsWith cs name && matchDelim (cs.drop name.length)

/-- `\s+` followed by the name and the delimiter: at least one whitespace
character, then `matchNameTail` at some later point of the whitespace run. -/
def matchWsName (name : List Char) : List Char → Bool
  | [] => false
  | c :: rest => pyIsSpace c && (matchNameTail name rest || matchWsName name rest)

/-- The whole pattern at one anchor position: the literal keyword `class` or
`def`, then `\s+ name \s* [\(\:]`.  Returns `match.group(1)`. -/
def matchDefAt (name : List Char) (cs : List Char) : Option String :=
  if listStartsWith cs "class".toList && matchWsName name (cs.drop 5) then
    some "class"
  else if listStartsWith cs "def".toList && matchWsName name (cs.drop 3) then
    some "def"
  else none

/-- Advance past the next `'\n'`; `none` when no newline remains (no further
anchor position for `^`). -/
def afterNewline : List Char → Option (List Char)
  | [] => none
  | c :: rest => if c == '\n' then some rest else afterNewline rest

theorem afterNewline_length {cs rest : List Char}
    (h : afterNewline cs = some rest) : rest.length < cs.length := by
  induction cs with
  | nil => simp [afterNewline] at h
  | cons c cs ih =>
    simp only [afterNewline] at h
    split at h
    · cases h; simp
    · exact Nat.lt_trans (ih h) (by simp)

/-- `re.finditer` over the anchor positions in order, tracking the number of
newlines seen so far (= the 0-based line index of the anchor), returning the
first match's line and `group(1)`.  Structural recursion on explicit fuel so
that concrete instances reduce in the kernel; `afterNewline` shortens the
text, so any fuel above the text length is enough (`afterNewline_length`). -/
def scanForDefFuel (name : List Char) : Nat → Nat → List Char →
    Option (Nat × String)
  | 0, _, _ => none
  | fuel + 1, lineNo, cs =>
    match matchDefAt name cs with
    | some kw => some (lineNo, kw)
    | none =>
      match afterNewline cs with
      | none => none
      | some rest => scanForDefFuel name fuel (lineNo + 1) rest

def scanForDef (name : List Char) (lineNo : Nat) (cs : List Char) :
    Option (Nat × String) :=
  scanForDefFuel name (cs.length + 1) lineNo cs

/-- The successful part of the dict returned by `_search_in_file`
(lines 153-158). -/
structure SearchResult where
  sourceCode : String
  startLine : Nat
  matchType : String
  deriving DecidableEq, Repr

/-- `_search_in_file(file_path, entity_name, method_name)` on a file that
exists and whose text is `content`; `none` is the `{}` returned when the
pattern never matches. -/
def searchInFile (content : String) (entityName : String) :
    Option SearchResult :=
  match scanForDef entityName.toList 0 content.toList with
  | none => none
  | some (startLine, kw) =>
    some { sourceCode := extractFullDefinition content startLine
           startLine := startLine
           matchType := kw }

/-- The suffix of the text at the anchor position of line `l` (the claim's
notion of "the l-th line onward"). -/
def suffixAtLine (cs : List Char) : Nat → Option (List Char)
  | 0 => some cs
  | l + 1 =>
    match afterNewline cs with
    | none => none
    | some rest => suffixAtLine rest l

/-- `line.lstrip()` on the character level. -/
def lstripChars (cs : List Char) : List Char :=
  cs.dropWhile pyIsSpace

/-! ## The Python AST fragment the agent inspects

The agent only ever distinguishes `ast.ClassDef`, `ast.FunctionDef`,
`ast.AsyncFunctionDef`, `ast.Import`/`ast.ImportFrom`, `ast.Assign` (with
`ast.Name` targets) and expression statements whose value is a string literal
(the docstring position used by `ast.get_docstring`); every other node only
contributes its children to the traversal.  `ast.parse` itself is the CPython
parser; it is abstracted as a parameter `pyParse : String → Option PyNode`
(`none` models `SyntaxError`), so all universally quantified theorems below
hold for every parser, and concrete counterexamples supply the actual parse of
their concrete snippet. -/

inductive PyNode where
  | module (body : List PyNode)
  | classDef (name : String) (body : List PyNode)
  | funcDef (name : String) (isAsync : Bool) (body : List PyNode)
  | importNode (text : String)
  | assign (targets : List String)
  | exprStr (s : String)
  | other (children : List PyNode)
  deriving Repr

mutual

/-- Structural equality of nodes (see `surroundStep` for how it is used). -/
def nodeBEq : PyNode → PyNode → Bool
  | .module b1, .module b2 => nodesBEq b1 b2
  | .classDef n1 b1, .classDef n2 b2 => n1 == n2 && nodesBEq b1 b2
  | .funcDef n1 a1 b1, .funcDef n2 a2 b2 => n1 == n2 && a1 == a2 && nodesBEq b1 b2
  | .importNode t1, .importNode t2 => t1 == t2
  | .assign t1, .assign t2 => t1 == t2
  | .exprStr s1, .exprStr s2 => s1 == s2
  | .other c1, .other c2 => nodesBEq c1 c2
  | _, _ => false

def nodesBEq : List PyNode → List PyNode → Bool
  | [], [] => true
  | a :: as_, b :: bs => nodeBEq a b && nodesBEq as_ bs
  | _, _ => false

end

/-- The child nodes a value yields to `ast.iter_child_nodes`. -/
def childrenOf : PyNode → List PyNode
  | .module b => b
  | .classDef _ b => b
  | .funcDef _ _ b => b
  | .importNode _ => []
  | .assign _ => []
  | .exprStr _ => []
  | .other cs => cs

mutual

/-- Size of a node (for the traversal fuel below). -/
def nodeSize : PyNode → Nat
  | .module b => 1 + forestSize b
  | .classDef _ b => 1 + forestSize b
  | .funcDef _ _ b => 1 + forestSize b
  | .importNode _ => 1
  | .assign _ => 1
  | .exprStr _ => 1
  | .other cs => 1 + forestSize cs

/-- Total size of a list of nodes. -/
def forestSize : List PyNode → Nat
  | [] => 0
  | n :: rest => nodeSize n + forestSize rest

end

/-- The breadth-first queue traversal of `ast.walk`, with explicit fuel (so
concrete instances reduce in the kernel).  Each step removes a node whose
size strictly exceeds the total size of the children it enqueues, so the
total size of the initial queue is enough fuel. -/
def walkBFSFuel : Nat → List PyNode → List PyNode
  | 0, _ => []
  | fuel + 1, queue =>
    match queue with
    | [] => []
    | n :: rest => n :: walkBFSFuel fuel (rest ++ childrenOf n)

/-- `ast.walk(node)`: breadth-first traversal by a queue, the node itself
first.  `walkBFS [t]` is `list(ast.walk(t))`. -/
def walkBFS (queue : List PyNode) : List PyNode :=
  walkBFSFuel (forestSize queue) queue

/-- `isinstance(node, (ast.ClassDef, ast.FunctionDef, ast.AsyncFunctionDef))
and node.name == entity`. -/
def isNamedDef (entity : String) : PyNode → Bool
  | .classDef nm _ => nm == entity
  | .funcDef nm _ _ => nm == entity
  | _ => false

/-- The first definition node with the given name in a traversal order. -/
def firstNamedDef (entity : String) : List PyNode → Option PyNode
  | [] => none
  | n :: rest => if isNamedDef entity n then some n else firstNamedDef entity rest

/-- Python truthiness of the `method_name` argument (`if method_name`):
`None` and `""` are falsy. -/
def methodTruthy : Option String → Bool
  | none => false
  | some s => !(s == "")

/-- `isinstance(child, (ast.FunctionDef, ast.AsyncFunctionDef)) and
child.name == method_name`. -/
def isFuncNamed (m : String) : PyNode → Bool
  | .funcDef nm _ _ => nm == m
  | _ => false

/-- The `for child in node.body` loop of `_find_ast_node` (lines 219-221):
first direct child that is a (possibly async) function with the method's
name. -/
def findMethodIn (body : List PyNode) (m : String) : Option PyNode :=
  match body with
  | [] => none
  | c :: rest => if isFuncNamed m c then some c else findMethodIn rest m

/-- The body of the `if method_name and isinstance(node, ast.ClassDef)`
narrowing (lines 217-221): the first matching direct child method, the node
itself if the method is absent or the node is not a class. -/
def narrowToMethod (n : PyNode) (m : String) : Option PyNode :=
  match n with
  | .classDef _ body =>
    match findMethodIn body m with
    | some child => some child
    | none => some n
  | _ => some n

/-- The `for node in ast.walk(tree)` loop of `_find_ast_node`
(lines 214-222) over an explicit traversal list. -/
def resolveEntityNode (entity : String) (methodName : Option String) :
    List PyNode → Option PyNode
  | [] => none
  | n :: rest =>
    if isNamedDef entity n then
      if methodTruthy methodName then narrowToMethod n (methodName.getD "")
      else some n
    else resolveEntityNode entity methodName rest

/-- `_find_ast_node(tree, entity_name, method_name)`
(`src/enhanced_code_agent.py`, lines 212-223). -/
def findAstNode (tree : PyNode) (entity : String) (methodName : Option String) :
    Option PyNode :=
  resolveEntityNode entity methodName (walkBFS [tree])

/-- `ast.get_docstring(node)`: the string of a leading string-literal
expression statement of a module, class or function body.  (The
`inspect.cleandoc` normalisation CPython applies is not modelled; no claim
depends on the whitespace inside a docstring.) -/
def docstringOf : PyNode → Option String
  | .module body | .classDef _ body | .funcDef _ _ body =>
    match body.head? with
    | some (.exprStr s) => some s
    | _ => none
  | _ => none

/-- The record stored under `"docstring_analysis"` in the local `analysis`
dict of `_analyze_purpose` (lines 271-278). -/
structure DocstringInfo where
  existsFlag : Bool
  length : Nat
  hasParameters : Bool
  hasReturns : Bool
  hasExamples : Bool
  content : String
  deriving DecidableEq, Repr

/-- The docstring-extraction part of `_analyze_purpose` (lines 263-281): parse
the already-extracted source, walk to the first class/function node with the
entity's name, and if it carries a truthy docstring build the record; the bare
`except: pass` and all falsy cases leave the field absent. -/
def purposeDocstringAnalysis (pyParse : String → Option PyNode)
    (sourceCode entityName : String) : Option DocstringInfo :=
  match pyParse sourceCode with
  | none => none
  | some tree =>
    match firstNamedDef entityName (walkBFS [tree]) with
    | none => none
    | some node =>
      match docstringOf node with
      | none => none
      | some d =>
        if d ≠ "" then
          some { existsFlag := true
                 length := d.length
                 hasParameters := strContains d "Args:" || strContains d "Parameters:"
                 hasReturns := strContains d "Returns:" || strContains d "Return:"
                 hasExamples := strContains d "Example"
                 content := if d.length > 200 then String.mk (d.toList.take 200) ++ "..."
                   else d }
        else none

/-- The dict built by `_extract_surrounding_context` (lines 225-247). -/
structure SurroundingContext where
  imports : List String
  classes : List String
  functions : List String
  constants : List String
  decorators : List String
  deriving DecidableEq, Repr

def emptySurrounding : SurroundingContext :=
  { imports := [], classes := [], functions := [], constants := [],
    decorators := [] }

/-- One iteration of the `for node in ast.walk(tree)` loop of
`_extract_surrounding_context` (lines 235-245).  The Python `node !=
target_node` comparison on AST nodes is identity; nodes are compared
structurally here, which coincides with identity on every tree without
duplicate subtrees (none of the claims involves one). -/
def surroundStep (target : Option PyNode) (s : SurroundingContext)
    (n : PyNode) : SurroundingContext :=
  match n with
  | .importNode t => { s with imports := s.imports ++ [t] }
  | .classDef nm _ =>
    if (target.map (nodeBEq n)).getD false then s
    else { s with classes := s.classes ++ [nm] }
  | .funcDef nm _ _ =>
    if (target.map (nodeBEq n)).getD false then s
    else { s with functions := s.functions ++ [nm] }
  | .assign ts => { s with constants := s.constants ++ ts }
  | _ => s

/-- `_extract_surrounding_context(tree, target_node)`. -/
def extractSurroundingContext (tree : PyNode) (target : Option PyNode) :
    SurroundingContext :=
  (walkBFS [tree]).foldl (surroundStep target) emptySurrounding

/-! ## The locator context — `_load_context`

`src/enhanced_code_agent.py`, lines 102-133.  The context is a dict with a
closed key set: nine keys are created at lines 104-114, `_search_in_file`'s
result may add `start_line` and `match_type` (or `error`), and lines 124-131
may fill `ast_node`, `surrounding_context` and add `parse_error`.  `Context`
has one field per key the pipeline can ever hold; `Option` fields model keys
that may be absent or `None`.  The key `"docstring_analysis"` — read by
`_calculate_confidence_score` (line 480), `_generate_clarification_questions`
(line 458) and `_suggest_documentation_improvements` (line 724) — is assigned
by no statement anywhere in the source (the records of lines 271-278 go into
the local `analysis` dict of `_analyze_purpose`), so every context the
pipeline builds leaves `docstringAnalysis = none`. -/

structure Context where
  entityName : String
  methodName : Option String
  sourceCode : String
  astNode : Option PyNode
  filePath : String
  surroundingContext : Option SurroundingContext
  docstringAnalysis : Option DocstringInfo
  matchType : Option String
  startLine : Option Nat
  parseError : Bool
  deriving Repr

/-- `_load_context(entity_name, method_name, file_path)` for a request that
names an existing, readable file whose text is `content` (strategy 1 at line
119; strategy 2, `_search_in_project`, returns the first per-file result of
the same `_search_in_file`, so every context is assembled exactly as here). -/
def loadContext (pyParse : String → Option PyNode) (content : String)
    (entityName : String) (methodName : Option String) (givenPath : String) :
    Context :=
  let base : Context :=
    { entityName := entityName, methodName := methodName, sourceCode := ""
      astNode := none, filePath := "", surroundingContext := none
      docstringAnalysis := none, matchType := none, startLine := none
      parseError := false }
  let c1 : Context :=
    match searchInFile content entityName with
    | none => base
    | some r =>
      { base with sourceCode := r.sourceCode, filePath := givenPath
                  startLine := some r.startLine, matchType := some r.matchType }
  if c1.sourceCode ≠ "" then
    match pyParse c1.sourceCode with
    | some tree =>
      let node := findAstNode tree entityName methodName
      { c1 with astNode := node
                surroundingContext := some (extractSurroundingContext tree node) }
    | none => { c1 with parseError := true }
  else c1

/-- The keys the context dict holds (for Python truthiness of the dict):
the nine initial keys of lines 104-114 plus the conditionally added ones. -/
def contextDictKeys (c : Context) : List String :=
  ["entity_name", "method_name", "source_code", "ast_node", "file_path",
   "surrounding_context", "dependencies", "class_hierarchy", "module_info"] ++
    (match c.startLine with | some _ => ["start_line", "match_type"] | none => []) ++
    (if c.parseError then ["parse_error"] else [])

/-- Truthiness of `context.get("docstring_analysis", {}).get("exists")`. -/
def docFlagTruthy (c : Context) : Bool :=
  match c.docstringAnalysis with
  | some i => i.existsFlag
  | none => false

/-- Truthiness of `context.get("surrounding_context", {}).get("imports")`:
absent key or empty list is falsy. -/
def importsTruthy (c : Context) : Bool :=
  match c.surroundingContext with
  | some sc => !sc.imports.isEmpty
  | none => false

/-- `_calculate_confidence_score(context)` (lines 471-495): five independent
additions to a score starting at 0, then `min(score, 100.0)`.  The Python
float is integral throughout, embedded as `Nat`. -/
def calculateConfidenceScore (c : Context) : Nat :=
  min ((if c.sourceCode ≠ "" then 30 else 0) +
       (if docFlagTruthy c then 20 else 0) +
       (if c.astNode.isSome then 20 else 0) +
       (if importsTruthy c then 15 else 0) +
       (if c.filePath ≠ "" then 15 else 0)) 100

/-- The confidence formula in the words of the specification (the refinement
target that claim C2 states): an additive point scale capped at 100, +30 if
source was located, +20 if a docstring/comment block exists on the located
entity, +20 if the tree node was found, +15 if surrounding imports were
harvested, +15 if a concrete file path is known. -/
def specConfidenceFormula (located documented parsed hasImports hasPath : Bool) :
    Nat :=
  min ((if located then 30 else 0) + (if documented then 20 else 0) +
       (if parsed then 20 else 0) + (if hasImports then 15 else 0) +
       (if hasPath then 15 else 0)) 100

/-- The fields of the report dict of `analyze_code_entity` (lines 75-89) that
the claims mention. -/
structure Report where
  entityName : String
  methodName : Option String
  fileLocation : String
  confidenceScore : Nat
  deriving DecidableEq, Repr

/-- The outcomes of `analyze_code_entity`: the not-found error dict of lines
51-58, or the full report dict.  (The `except Exception` error dict of lines
92-100 is unreachable in the embedding because every embedded step is total;
it would be a third data constructor, never an uncaught exception.) -/
inductive AnalysisResult where
  | errorNotFound (error : String) (suggestions : List String)
  | report (r : Report)
  deriving DecidableEq, Repr

/-- `analyze_code_entity(entity_name, method_name, file_path)` (lines 31-100)
for a request naming an existing readable file with text `content`.  The
guard at line 50 is Python `if not context:` — dict emptiness, embedded as
emptiness of the context's key list. -/
def analyzeCodeEntity (pyParse : String → Option PyNode) (content : String)
    (entityName : String) (methodName : Option String) (givenPath : String) :
    AnalysisResult :=
  let context := loadContext pyParse content entityName methodName givenPath
  if (contextDictKeys context).isEmpty then
    .errorNotFound ("Could not find entity " ++ entityName ++ " in the codebase")
      ["Check if the class/method name is spelled correctly",
       "Ensure the file is in the project directory",
       "Try providing the file_path parameter"]
  else
    .report { entityName := entityName, methodName := methodName
              fileLocation := context.filePath
              confidenceScore := calculateConfidenceScore context }

/-! ## Concrete fixtures used by witnesses and counterexamples -/

/-- The spec's block-extraction example: six lines
`def f():` / `    x = 1` / blank / `    y = 2` / `def g():` / `    pass`. -/
def blockExample : String :=
  "def f():\n    x = 1\n\n    y = 2\ndef g():\n    pass"

/-- A three-line module whose single function carries a docstring. -/
def exContent : String :=
  "def foo():\n    \"\"\"Docstring.\"\"\"\n    return 1\n"

/-- The CPython parse of `exContent`: a module holding `def foo`, whose body
is the docstring expression statement followed by the return statement. -/
def exTree : PyNode :=
  .module [.funcDef "foo" false [.exprStr "Docstring.", .other []]]

/-- `ast.parse` restricted to the one source text the concrete runs below
feed it (the extracted block equals `exContent` itself). -/
def exParse : String → Option PyNode :=
  fun s => if s == exContent then some exTree else none

/-- Discriminator for the `InvalidLineSpec` outcome. -/
def isInvalidSpecResult : LineAnalysisResult → Bool
  | .invalidLineSpec _ => true
  | _ => false

/-- A parsed module holding one class `A` with docstring and two methods. -/
def clsTree : PyNode :=
  .module [.classDef "A"
    [.exprStr "doc", .funcDef "m1" false [.other []], .funcDef "m2" false []]]

/-! ## Theorems

### Block extraction (C4, C5) -/

/-- The loop of `_extract_full_definition` keeps exactly the longest prefix of
lines that are blank, comment-only, or indented deeper than the base; the
first other line (if any) is where it stops. -/
theorem extractLoop_spec (base : Nat) (ls : List String) :
    ∃ k, k ≤ ls.length ∧ extractLoop base ls = ls.take k ∧
      (∀ l ∈ ls.take k,
        (isBlankLine l || isCommentLine l) = true ∨ base < indentOf l) ∧
      (∀ s r2, ls.drop k = s :: r2 →
        (isBlankLine s || isCommentLine s) = false ∧ indentOf s ≤ base) := by
  induction ls with
  | nil =>
    refine ⟨0, Nat.le_refl 0, by simp [extractLoop], by simp, ?_⟩
    intro s r2 h
    simp at h
  | cons l rest ih =>
    obtain ⟨k, hk, heq, hkeep, hstop⟩ := ih
    by_cases hbc : (isBlankLine l || isCommentLine l) = true
    · refine ⟨k + 1, by simpa using hk, ?_, ?_, ?_⟩
      · simp [extractLoop, hbc, heq, List.take_succ_cons]
      · intro x hx
        rw [List.take_succ_cons, List.mem_cons] at hx
        rcases hx with rfl | hx
        · exact Or.inl hbc
        · exact hkeep x hx
      · intro s r2 h
        rw [List.drop_succ_cons] at h
        exact hstop s r2 h
    · by_cases hind : indentOf l ≤ base
      · refine ⟨0, Nat.zero_le _, ?_, by simp, ?_⟩
        · simp [extractLoop, hbc, hind]
        · intro s r2 h
          rw [List.drop_zero, List.cons.injEq] at h
          obtain ⟨rfl, rfl⟩ := h
          exact ⟨by simpa using hbc, hind⟩
      · refine ⟨k + 1, by simpa using hk, ?_, ?_, ?_⟩
        · simp [extractLoop, hbc, hind, heq, List.take_succ_cons]
        · intro x hx
          rw [List.take_succ_cons, List.mem_cons] at hx
          rcases hx with rfl | hx
          · exact Or.inr (by omega)
          · exact hkeep x hx
        · intro s r2 h
          rw [List.drop_succ_cons] at h
          exact hstop s r2 h

/-- C4: for every file text and starting line, `extract_block` returns empty
text when the starting line is beyond the file length; otherwise its result
is the starting line followed by a prefix of the subsequent lines in which
every line is blank, comment-only, or indented strictly deeper than the
starting line (so blank and comment-only lines never terminate the block),
and the first subsequent line that is none of these — when it exists — is
excluded and ends the block. -/
theorem extract_block_characterization (content : String) (startLine : Nat) :
    (startLine ≥ (splitLines content).length →
      extractFullDefinition content startLine = "") ∧
    (∀ defLine rest, (splitLines content).drop startLine = defLine :: rest →
      ∃ k, k ≤ rest.length ∧
        extractFullDefinition content startLine =
          joinLines (defLine :: rest.take k) ∧
        (∀ l ∈ rest.take k,
          (isBlankLine l || isCommentLine l) = true ∨
            indentOf defLine < indentOf l) ∧
        (∀ s r2, rest.drop k = s :: r2 →
          (isBlankLine s || isCommentLine s) = false ∧
            indentOf s ≤ indentOf defLine)) := by
  constructor
  · intro h
    unfold extractFullDefinition
    rw [List.drop_eq_nil_of_le h]
  · intro defLine rest hdr
    obtain ⟨k, hk, heq, hkeep, hstop⟩ := extractLoop_spec (indentOf defLine) rest
    exact ⟨k, hk, by simp only [extractFullDefinition, hdr]; rw [heq], hkeep, hstop⟩

/-- Witness for C4 at concrete inputs: a starting line beyond a one-line file
yields `""`, and on the one-line file `"def f():"` the block is the starting
line alone. -/
theorem extract_block_characterization_witness :
    (extractFullDefinition "x = 1" 3 = "") ∧
    (∃ k, k ≤ ([] : List String).length ∧
      extractFullDefinition "def f():" 0 =
        joinLines ("def f():" :: ([] : List String).take k) ∧
      (∀ l ∈ ([] : List String).take k,
        (isBlankLine l || isCommentLine l) = true ∨
          indentOf "def f():" < indentOf l) ∧
      (∀ s r2, ([] : List String).drop k = s :: r2 →
        (isBlankLine s || isCommentLine s) = false ∧
          indentOf s ≤ indentOf "def f():")) :=
  ⟨(extract_block_characterization "x = 1" 3).1 (by decide),
   (extract_block_characterization "def f():" 0).2 "def f():" [] (by decide)⟩

/-- C5 counterexample: on the spec's six-line example the block starting at
the first line has four lines, not five. -/
theorem extract_block_example_counterexample :
    (splitLines (extractFullDefinition blockExample 0)).length = 4 ∧
    (4 : Nat) ≠ 5 := by decide

/-- C5 amended: on the six-line example, `extract_block` at the first line
returns the FOUR lines through `    y = 2` and excludes `def g():`. -/
theorem extract_block_example_amended :
    extractFullDefinition blockExample 0 = "def f():\n    x = 1\n\n    y = 2" ∧
    (splitLines (extractFullDefinition blockExample 0)).length = 4 ∧
    strContains (extractFullDefinition blockExample 0) "def g(" = false := by
  decide

/-! ### Line-range validation (C1, C6) -/

/-- C1 counterexample: `line_spec = "5-3"` (end before start) on a 50-line
file is NOT rejected as `InvalidLineSpec`; it parses to `start = 5`,
`end = 3` and the request succeeds. -/
theorem lineSpec_end_before_start_counterexample :
    lineLevelCore (List.replicate 50 "x") "5-3" =
      .ok { startLine := 5, endLine := 3, totalFileLines := 50 } ∧
    isInvalidSpecResult (lineLevelCore (List.replicate 50 "x") "5-3") = false := by
  decide

/-- C1 amended: `"abc"` yields `InvalidLineSpec`; `"999999"` on a 50-line
file yields `LineOutOfRange` reporting `valid_range = "1-50"`; but `"5-3"`
(end before start) is accepted, because only the start line is validated. -/
theorem lineSpec_validation_amended :
    lineLevelCore (List.replicate 50 "x") "abc" =
      .invalidLineSpec "Single line (e.g., 42) or range (e.g., 42-45)" ∧
    lineLevelCore (List.replicate 50 "x") "999999" =
      .lineOutOfRange "Line 999999 is out of range (file has 50 lines)" "1-50" ∧
    lineLevelCore (List.replicate 50 "x") "5-3" =
      .ok { startLine := 5, endLine := 3, totalFileLines := 50 } := by
  decide

/-- C6 counterexample: `line_spec = "5-999"` on a 50-line file produces a
successful context whose `end_line = 999` exceeds `total_file_lines = 50`;
the claimed invariant `end_line ≤ total_file_lines` fails. -/
theorem lineRange_end_unchecked_counterexample :
    lineLevelCore (List.replicate 50 "x") "5-999" =
      .ok { startLine := 5, endLine := 999, totalFileLines := 50 } ∧
    ¬((999 : Int) ≤ 50) := by decide

/-- C6 amended: every successful line-range context satisfies
`1 ≤ start_line ≤ total_file_lines` (with `total_file_lines` the file's line
count), and a parsed start line outside that interval yields `LineOutOfRange`
with the valid interval; `end_line` is never validated. -/
theorem lineRange_start_only_invariant (fileLines : List String)
    (spec : String) :
    (∀ ctx, lineLevelCore fileLines spec = .ok ctx →
      1 ≤ ctx.startLine ∧ ctx.startLine ≤ (ctx.totalFileLines : Int) ∧
        ctx.totalFileLines = fileLines.length) ∧
    (∀ s e, parseLineSpec spec = some (s, e) →
      (s < 1 ∨ s > (fileLines.length : Int)) →
      lineLevelCore fileLines spec =
        .lineOutOfRange
          ("Line " ++ toString s ++ " is out of range (file has " ++
            toString fileLines.length ++ " lines)")
          ("1-" ++ toString fileLines.length)) := by
  constructor
  · intro ctx h
    unfold lineLevelCore at h
    cases hp : parseLineSpec spec with
    | none => rw [hp] at h; exact absurd h (by simp)
    | some p =>
      obtain ⟨s, e⟩ := p
      rw [hp] at h
      dsimp only at h
      split at h
      · exact absurd h (by simp)
      · rename_i hcond
        rw [LineAnalysisResult.ok.injEq] at h
        subst h
        push_neg at hcond
        refine ⟨?_, ?_, rfl⟩ <;> dsimp only <;> omega
  · intro s e hp hrange
    unfold lineLevelCore
    rw [hp]
    dsimp only
    rw [if_pos hrange]

/-- Witness for C6 at concrete inputs: the context of `"5-7"` on a 50-line
file satisfies the start-line invariant, and `"0"` on that file yields
`LineOutOfRange` with interval `1-50`. -/
theorem lineRange_start_only_invariant_witness :
    (1 ≤ ({ startLine := 5, endLine := 7, totalFileLines := 50 } :
        LocationContext).startLine ∧
      ({ startLine := 5, endLine := 7, totalFileLines := 50 } :
        LocationContext).startLine ≤
        (({ startLine := 5, endLine := 7, totalFileLines := 50 } :
          LocationContext).totalFileLines : Int) ∧
      ({ startLine := 5, endLine := 7, totalFileLines := 50 } :
        LocationContext).totalFileLines =
        (List.replicate 50 "x").length) ∧
    lineLevelCore (List.replicate 50 "x") "0" =
      .lineOutOfRange "Line 0 is out of range (file has 50 lines)" "1-50" :=
  ⟨(lineRange_start_only_invariant (List.replicate 50 "x") "5-7").1
      { startLine := 5, endLine := 7, totalFileLines := 50 } (by decide),
   (lineRange_start_only_invariant (List.replicate 50 "x") "0").2 0 0
      (by decide) (by decide)⟩

/-! ### Security analyzer (C7) -/

/-- C7: every source text containing an `eval(` occurrence yields exactly one
critical-severity security finding, and its suggestion names
`ast.literal_eval` as the safe alternative. -/
theorem security_eval_critical (s : String)
    (h : strContains s "eval(" = true) :
    (analyzeSecurityRisks s).filter (fun f => f.severity == "critical") =
      [evalRiskFinding] ∧
    strContains evalRiskFinding.suggestion "ast.literal_eval" = true := by
  refine ⟨?_, by decide⟩
  cases h2 : (strContains s "open(" && strContains s "w") <;>
    simp [analyzeSecurityRisks, h, h2] <;> decide

/-- Witness for C7 on the source text `y = eval(x)`. -/
theorem security_eval_critical_witness :
    strContains "y = eval(x)" "eval(" = true ∧
    ((analyzeSecurityRisks "y = eval(x)").filter
        (fun f => f.severity == "critical") = [evalRiskFinding] ∧
      strContains evalRiskFinding.suggestion "ast.literal_eval" = true) :=
  ⟨by decide, security_eval_critical "y = eval(x)" (by decide)⟩

/-! ### The locator matches only column-0 definitions (C3) -/

/-- Behaviour of `scanForDefFuel` with enough fuel: it returns `none` exactly
when no anchor position matches, and otherwise the first matching anchor's
line number (counted from `lineNo`) and keyword. -/
theorem scanForDefFuel_spec (name : List Char) :
    ∀ fuel cs lineNo, cs.length < fuel →
      (scanForDefFuel name fuel lineNo cs = none →
        ∀ l s, suffixAtLine cs l = some s → matchDefAt name s = none) ∧
      (∀ ln kw, scanForDefFuel name fuel lineNo cs = some (ln, kw) →
        lineNo ≤ ln ∧
        ∃ s, suffixAtLine cs (ln - lineNo) = some s ∧
          matchDefAt name s = some kw ∧
          ∀ l, l < ln - lineNo → ∀ s', suffixAtLine cs l = some s' →
            matchDefAt name s' = none) := by
  intro fuel
  induction fuel with
  | zero => intro cs lineNo h; exact absurd h (Nat.not_lt_zero _)
  | succ fuel ih =>
    intro cs lineNo hlen
    cases hm : matchDefAt name cs with
    | some kw =>
      constructor
      · intro hnone
        simp [scanForDefFuel, hm] at hnone
      · intro ln kw' hsome
        simp only [scanForDefFuel, hm] at hsome
        rw [Option.some.injEq, Prod.mk.injEq] at hsome
        obtain ⟨rfl, rfl⟩ := hsome
        refine ⟨Nat.le_refl _, cs, ?_, hm, ?_⟩
        · simp [suffixAtLine]
        · intro l hl; omega
    | none =>
      cases hn : afterNewline cs with
      | none =>
        constructor
        · intro _ l s hsuf
          cases l with
          | zero =>
            simp only [suffixAtLine, Option.some.injEq] at hsuf
            subst hsuf; exact hm
          | succ l => simp [suffixAtLine, hn] at hsuf
        · intro ln kw hsome
          simp [scanForDefFuel, hm, hn] at hsome
      | some rest =>
        have hrest : rest.length < fuel :=
          Nat.lt_of_lt_of_le (afterNewline_length hn) (Nat.lt_succ_iff.mp hlen)
        have heq : scanForDefFuel name (fuel + 1) lineNo cs =
            scanForDefFuel name fuel (lineNo + 1) rest := by
          simp [scanForDefFuel, hm, hn]
        constructor
        · intro hnone l s hsuf
          rw [heq] at hnone
          cases l with
          | zero =>
            simp only [suffixAtLine, Option.some.injEq] at hsuf
            subst hsuf; exact hm
          | succ l =>
            simp only [suffixAtLine, hn] at hsuf
            exact (ih rest (lineNo + 1) hrest).1 hnone l s hsuf
        · intro ln kw hsome
          rw [heq] at hsome
          obtain ⟨hle, s, hsuf, hmt, hfirst⟩ :=
            (ih rest (lineNo + 1) hrest).2 ln kw hsome
          refine ⟨by omega, s, ?_, hmt, ?_⟩
          · have : ln - lineNo = (ln - (lineNo + 1)) + 1 := by omega
            rw [this]
            simp only [suffixAtLine, hn]
            exact hsuf
          · intro l hl s' hsuf'
            cases l with
            | zero =>
              simp only [suffixAtLine, Option.some.injEq] at hsuf'
              subst hsuf'; exact hm
            | succ l =>
              simp only [suffixAtLine, hn] at hsuf'
              exact hfirst l (by omega) s' hsuf'

/-- C3 amended: the locator matches the pattern only at line starts with the
defining keyword in column 0 — a line whose first character is whitespace
never matches, so indented definitions (e.g. methods) are not found; when a
match exists the first matching line wins and the extracted block starts
there; when the locator fails, no line matches. -/
theorem locate_column0_first_match (content name : String) :
    (searchInFile content name = none →
      ∀ l s, suffixAtLine content.toList l = some s →
        matchDefAt name.toList s = none) ∧
    (∀ r, searchInFile content name = some r →
      r.sourceCode = extractFullDefinition content r.startLine ∧
      ∃ s, suffixAtLine content.toList r.startLine = some s ∧
        matchDefAt name.toList s = some r.matchType ∧
        ∀ l, l < r.startLine → ∀ s', suffixAtLine content.toList l = some s' →
          matchDefAt name.toList s' = none) ∧
    (∀ c cs, pyIsSpace c = true → matchDefAt name.toList (c :: cs) = none) := by
  have hspec := scanForDefFuel_spec name.toList (content.toList.length + 1)
      content.toList 0 (Nat.lt_succ_self _)
  refine ⟨?_, ?_, ?_⟩
  · intro hnone l s hsuf
    have : scanForDef name.toList 0 content.toList = none := by
      unfold searchInFile at hnone
      cases h : scanForDef name.toList 0 content.toList with
      | none => rfl
      | some p => obtain ⟨a, b⟩ := p; rw [h] at hnone; simp at hnone
    exact hspec.1 this l s hsuf
  · intro r hr
    unfold searchInFile at hr
    cases h : scanForDef name.toList 0 content.toList with
    | none => rw [h] at hr; simp at hr
    | some p =>
      obtain ⟨ln, kw⟩ := p
      rw [h] at hr
      simp only [Option.some.injEq] at hr
      subst hr
      obtain ⟨-, s, hsuf, hmt, hfirst⟩ := hspec.2 ln kw h
      rw [Nat.sub_zero] at hsuf
      simp only [Nat.sub_zero] at hfirst
      exact ⟨rfl, s, hsuf, hmt, fun l hl => hfirst l (by simpa using hl)⟩
  · intro c cs hws
    have hc : (c == 'c') = false ∧ (c == 'd') = false := by
      constructor
      · cases hcc : (c == 'c') with
        | false => rfl
        | true =>
          have : c = 'c' := by simpa using hcc
          subst this
          exact absurd hws (by decide)
      · cases hcc : (c == 'd') with
        | false => rfl
        | true =>
          have : c = 'd' := by simpa using hcc
          subst this
          exact absurd hws (by decide)
    unfold matchDefAt
    rw [show "class".toList = 'c' :: "lass".toList from rfl,
        show "def".toList = 'd' :: "ef".toList from rfl]
    simp [listStartsWith, hc.1, hc.2]

/-- Witness for C3 amended: on the file `x = 1` the locator fails and indeed
the only line does not match; and a line beginning with a space never
matches. -/
theorem locate_column0_first_match_witness :
    matchDefAt "foo".toList "x = 1".toList = none ∧
    matchDefAt "foo".toList (' ' :: "def foo():".toList) = none :=
  ⟨(locate_column0_first_match "x = 1" "foo").1 rfl 0 "x = 1".toList rfl,
   (locate_column0_first_match "x = 1" "foo").2.2 ' ' "def foo():".toList
     (by decide)⟩

/-- C3 counterexample: the claim says the locator ignores leading whitespace,
so the indented method line `    def foo(self):` — whose stripped text begins
with `def foo(` — would be matched; the locator in fact returns nothing for
`foo` on this file. -/
theorem locate_indented_method_counterexample :
    searchInFile "class A:\n    def foo(self):\n        pass" "foo" = none ∧
    listStartsWith (lstripChars "    def foo(self):".toList)
      "def foo(".toList = true := by decide

/-! ### AST node selection (C8) -/

/-- The `for node in ast.walk(tree)` loop of `_find_ast_node`, when the first
name match in traversal order is a class node, narrows to the method defined
directly in the class body, falling back to the class node itself. -/
theorem resolveEntityNode_of_firstNamedDef (entity m : String)
    (hm : methodTruthy (some m) = true) :
    ∀ (l : List PyNode) (nm : String) (body : List PyNode),
      firstNamedDef entity l = some (.classDef nm body) →
      resolveEntityNode entity (some m) l =
        match findMethodIn body m with
        | some child => some child
        | none => some (.classDef nm body) := by
  have hcons : ∀ (n : PyNode) (rest : List PyNode),
      resolveEntityNode entity (some m) (n :: rest) =
        if isNamedDef entity n then
          if methodTruthy (some m) then narrowToMethod n ((some m).getD "")
          else some n
        else resolveEntityNode entity (some m) rest := fun _ _ => rfl
  intro l
  induction l with
  | nil => intro nm body h; simp [firstNamedDef] at h
  | cons n rest ih =>
    intro nm body h
    by_cases hn : isNamedDef entity n = true
    · rw [firstNamedDef, if_pos hn, Option.some.injEq] at h
      subst h
      rw [hcons, if_pos hn, if_pos hm]
      rfl
    · rw [firstNamedDef, if_neg hn] at h
      rw [hcons, if_neg hn]
      exact ih nm body h

/-- C8: for every parsed tree whose first name match in walk order is a class,
with a (truthy) method name supplied, node selection returns the method node
defined directly in that class's body when it exists, and the class node
itself — not a failure — when it does not. -/
theorem find_ast_node_method_resolution (tree : PyNode) (entity m nm : String)
    (body : List PyNode) (hm : m ≠ "")
    (hfirst : firstNamedDef entity (walkBFS [tree]) =
      some (.classDef nm body)) :
    (∀ child, findMethodIn body m = some child →
      findAstNode tree entity (some m) = some child) ∧
    (findMethodIn body m = none →
      findAstNode tree entity (some m) = some (.classDef nm body)) := by
  have hmt : methodTruthy (some m) = true := by
    simp [methodTruthy, hm]
  have hres := resolveEntityNode_of_firstNamedDef entity m hmt
      (walkBFS [tree]) nm body hfirst
  constructor
  · intro child hc
    unfold findAstNode
    rw [hres, hc]
  · intro hc
    unfold findAstNode
    rw [hres, hc]

/-- Witness for C8 on the concrete class `A` with methods `m1`, `m2`:
requesting `m1` returns the method node, requesting the absent `zz` returns
the class node. -/
theorem find_ast_node_method_resolution_witness :
    findAstNode clsTree "A" (some "m1") =
      some (.funcDef "m1" false [.other []]) ∧
    findAstNode clsTree "A" (some "zz") =
      some (.classDef "A"
        [.exprStr "doc", .funcDef "m1" false [.other []],
         .funcDef "m2" false []]) :=
  ⟨(find_ast_node_method_resolution clsTree "A" "m1" "A"
      [.exprStr "doc", .funcDef "m1" false [.other []], .funcDef "m2" false []]
      (by decide) rfl).1 (.funcDef "m1" false [.other []]) rfl,
   (find_ast_node_method_resolution clsTree "A" "zz" "A"
      [.exprStr "doc", .funcDef "m1" false [.other []], .funcDef "m2" false []]
      (by decide) rfl).2 rfl⟩

/-! ### Confidence scoring (C2, C10) and the dead not-found branch (C9) -/

/-- No stage of the pipeline ever stores a value under the context key
`"docstring_analysis"`: every context `_load_context` can build leaves the
field absent. -/
theorem loadContext_docstringAnalysis (pyParse : String → Option PyNode)
    (content entityName : String) (methodName : Option String)
    (givenPath : String) :
    (loadContext pyParse content entityName methodName givenPath).docstringAnalysis =
      none := by
  unfold loadContext
  cases hs : searchInFile content entityName with
  | none => simp
  | some r =>
    simp only
    split
    · cases hp : pyParse r.sourceCode <;> simp [hp]
    · rfl

/-- C2 counterexample: on a request whose located entity carries a docstring
(as the code's own purpose analysis confirms), the spec's five-signal formula
gives 85, but the computed confidence is 65 — the +20 documentation signal is
read from a context field no stage populates. -/
theorem confidence_formula_counterexample :
    calculateConfidenceScore (loadContext exParse exContent "foo" none "ex.py") = 65 ∧
    (loadContext exParse exContent "foo" none "ex.py").sourceCode ≠ "" ∧
    purposeDocstringAnalysis exParse
        (loadContext exParse exContent "foo" none "ex.py").sourceCode "foo" =
      some { existsFlag := true, length := 10, hasParameters := false,
             hasReturns := false, hasExamples := false,
             content := "Docstring." } ∧
    (loadContext exParse exContent "foo" none "ex.py").astNode.isSome = true ∧
    importsTruthy (loadContext exParse exContent "foo" none "ex.py") = false ∧
    (loadContext exParse exContent "foo" none "ex.py").filePath ≠ "" ∧
    specConfidenceFormula true true true false true = 85 ∧
    (65 : Nat) ≠ 85 := by decide

/-- C2 amended: the computed confidence is the additive capped point scale
over the locator context's signals, in which the +20 documentation term reads
the never-populated `docstring_analysis` field and therefore contributes
nothing; the effective formula is +30 source, +20 tree node, +15 imports,
+15 file path. -/
theorem confidence_formula_amended (pyParse : String → Option PyNode)
    (content entityName : String) (methodName : Option String)
    (givenPath : String) :
    calculateConfidenceScore
        (loadContext pyParse content entityName methodName givenPath) =
      min ((if (loadContext pyParse content entityName methodName givenPath).sourceCode ≠ "" then 30 else 0) +
           (if (loadContext pyParse content entityName methodName givenPath).astNode.isSome then 20 else 0) +
           (if importsTruthy (loadContext pyParse content entityName methodName givenPath) then 15 else 0) +
           (if (loadContext pyParse content entityName methodName givenPath).filePath ≠ "" then 15 else 0))
        100 ∧
    (loadContext pyParse content entityName methodName givenPath).docstringAnalysis =
      none := by
  have hd := loadContext_docstringAnalysis pyParse content entityName methodName
    givenPath
  refine ⟨?_, hd⟩
  unfold calculateConfidenceScore
  have hf : docFlagTruthy
      (loadContext pyParse content entityName methodName givenPath) = false := by
    unfold docFlagTruthy
    rw [hd]
  rw [hf]
  simp

/-- C10: for every request, the report's confidence score is at most 80: the
+20 documentation signal never fires because the scorer reads the
`docstring_analysis` context key, which no pipeline stage stores. -/
theorem analyze_entity_confidence_le_80 (pyParse : String → Option PyNode)
    (content entityName : String) (methodName : Option String)
    (givenPath : String) :
    (∀ r, analyzeCodeEntity pyParse content entityName methodName givenPath =
        .report r → r.confidenceScore ≤ 80) ∧
    (loadContext pyParse content entityName methodName givenPath).docstringAnalysis =
      none := by
  have hd := loadContext_docstringAnalysis pyParse content entityName methodName
    givenPath
  refine ⟨?_, hd⟩
  intro r h
  unfold analyzeCodeEntity at h
  rw [if_neg (by simp [contextDictKeys])] at h
  rw [AnalysisResult.report.injEq] at h
  have hf : docFlagTruthy
      (loadContext pyParse content entityName methodName givenPath) = false := by
    unfold docFlagTruthy
    rw [hd]
  have hb : calculateConfidenceScore
      (loadContext pyParse content entityName methodName givenPath) ≤ 80 := by
    unfold calculateConfidenceScore
    rw [hf]
    simp only [Bool.false_eq_true, if_false]
    refine le_trans (Nat.min_le_left _ _) ?_
    split_ifs <;> norm_num
  rw [← h]
  exact hb

/-- Witness for C10 on the concrete docstring-carrying request: the report's
confidence is 65 ≤ 80. -/
theorem analyze_entity_confidence_le_80_witness :
    ({ entityName := "foo", methodName := none, fileLocation := "ex.py",
        confidenceScore := 65 } : Report).confidenceScore ≤ 80 ∧
    (loadContext exParse exContent "foo" none "ex.py").docstringAnalysis = none :=
  ⟨(analyze_entity_confidence_le_80 exParse exContent "foo" none "ex.py").1
      { entityName := "foo", methodName := none, fileLocation := "ex.py",
        confidenceScore := 65 } (by decide),
   (analyze_entity_confidence_le_80 exParse exContent "foo" none "ex.py").2⟩

/-- C9 (code bug): the not-found branch of `analyze_code_entity` is dead.
`_load_context` always returns a dict with its nine initial keys, so the
guard `if not context:` never fires; a request for an entity that exists
nowhere returns a full report (empty file location, confidence 0) instead of
the NotFound error value with the three suggestions. -/
theorem analyze_entity_not_found_returns_report :
    analyzeCodeEntity (fun _ => none) "x = 1" "NoSuchEntity" none "ex.py" =
      .report { entityName := "NoSuchEntity", methodName := none,
                fileLocation := "", confidenceScore := 0 } ∧
    ∀ c : Context, (contextDictKeys c).isEmpty = false :=
  ⟨rfl, fun _ => rfl⟩

end DebuggyDucky
